import Mathlib

/-!
Verification development for the crudo request-to-query translation engine
(crud.go, fiber variant, plus the render helpers).

The Go code is shallowly embedded: Go maps (`map[string]any`,
`map[string]string`, `map[string]define.ColumnInfo`) become association lists
with overwrite-in-place insertion (`aput`) and first-match lookup (`aget`),
which reproduces Go map semantics as long as key lists are duplicate-free
(which Go maps guarantee); dynamic `any` values become the `GoValue` inductive
carrying the Go dynamic type; fallible Go functions returning `(T, error)`
become `Except String T`.  Library collaborators that live outside this
repository (Go's `time.Parse`, `strconv.ParseFloat`, the gom row store) are
passed in as oracle parameters.
-/

namespace Crudo

/-! ## Association maps standing for Go maps -/

/-- Lookup in an association list, standing for a read of a Go map. -/
def aget {α : Type} : List (String × α) → String → Option α
  | [], _ => none
  | p :: rest, k => if p.1 == k then some p.2 else aget rest k

/-- Write to an association list, standing for a Go map assignment:
an existing binding is overwritten in place, otherwise the binding is
appended. -/
def aput {α : Type} : List (String × α) → String → α → List (String × α)
  | [], k, v => [(k, v)]
  | p :: rest, k, v => if p.1 == k then (k, v) :: rest else p :: aput rest k v

@[simp] theorem aget_nil {α : Type} (k : String) :
    aget ([] : List (String × α)) k = none := rfl

@[simp] theorem aget_aput_self {α : Type} (m : List (String × α)) (k : String) (v : α) :
    aget (aput m k v) k = some v := by
  induction m with
  | nil => simp [aget, aput]
  | cons p rest ih =>
    by_cases h : p.1 = k
    · simp [aget, aput, h]
    · simp [aget, aput, h, ih]

theorem aget_aput_ne {α : Type} (m : List (String × α)) (k k' : String) (v : α)
    (h : k' ≠ k) : aget (aput m k v) k' = aget m k' := by
  have hbk : (k == k') = false := beq_eq_false_iff_ne.mpr (fun hc => h hc.symm)
  induction m with
  | nil => simp [aput, aget, hbk]
  | cons p rest ih =>
    cases hb : p.1 == k with
    | true =>
      have hb' : (p.1 == k') = false := by rw [eq_of_beq hb]; exact hbk
      simp [aput, aget, hb, hb', hbk]
    | false =>
      cases hb' : p.1 == k' with
      | true => simp [aput, aget, hb, hb']
      | false => simp [aput, aget, hb, hb', ih]

/-- Keys of the map after a write: unchanged if the key was present,
the new key appended otherwise. -/
theorem aput_map_fst {α : Type} (m : List (String × α)) (k : String) (v : α) :
    (aput m k v).map Prod.fst = m.map Prod.fst ∨
      (aput m k v).map Prod.fst = m.map Prod.fst ++ [k] := by
  induction m with
  | nil => right; simp [aput]
  | cons p rest ih =>
    by_cases hp : p.1 = k
    · left; simp [aput, hp]
    · rcases ih with ih | ih
      · left
        simp only [aput]
        rw [if_neg (by simpa using hp)]
        simp [ih]
      · right
        simp only [aput]
        rw [if_neg (by simpa using hp)]
        simp [ih]

theorem aput_keys_nodup {α : Type} (m : List (String × α)) (k : String) (v : α)
    (h : (m.map Prod.fst).Nodup) (hk : aget m k = none) :
    ((aput m k v).map Prod.fst).Nodup := by
  induction m with
  | nil => simp [aput]
  | cons p rest ih =>
    by_cases hp : p.1 = k
    · simp [aget, hp] at hk
    · simp only [aput]
      rw [if_neg (by simpa using hp)]
      simp only [List.map_cons, List.nodup_cons] at h ⊢
      constructor
      · intro hc
        rcases aput_map_fst rest k v with he | he
        · exact h.1 (he ▸ hc)
        · rw [he, List.mem_append] at hc
          rcases hc with hc | hc
          · exact h.1 hc
          · simp at hc; exact hp hc
      · apply ih h.2
        simp only [aget] at hk
        rw [if_neg (by simpa using hp)] at hk
        exact hk

/-- A present key keeps the map's key list unchanged on overwrite. -/
theorem aput_keys_nodup' {α : Type} (m : List (String × α)) (k : String) (v : α)
    (h : (m.map Prod.fst).Nodup) :
    ((aput m k v).map Prod.fst).Nodup := by
  induction m with
  | nil => simp [aput]
  | cons p rest ih =>
    by_cases hp : p.1 = k
    · simp only [aput, hp, beq_self_eq_true, if_pos, List.map_cons, List.nodup_cons]
      simp only [List.map_cons, List.nodup_cons, hp] at h
      exact h
    · simp only [aput]
      rw [if_neg (by simpa using hp)]
      simp only [List.map_cons, List.nodup_cons] at h ⊢
      constructor
      · intro hc
        rcases aput_map_fst rest k v with he | he
        · exact h.1 (he ▸ hc)
        · rw [he, List.mem_append] at hc
          rcases hc with hc | hc
          · exact h.1 hc
          · simp at hc; exact hp hc
      · exact ih h.2

/-! ## A master lemma for Go's map-mutating loops

Every loop in the embedded code has the shape: iterate over a list, and at
each element conditionally overwrite the accumulator map at a key determined
by the element, with a value determined by the element and the accumulator's
current binding at that key.  `stepPut` is that loop body. -/

/-- One iteration of a Go map-mutating loop. -/
def stepPut {α β : Type} (key : β → String) (f : β → Option α → Option α)
    (d : List (String × α)) (x : β) : List (String × α) :=
  match f x (aget d (key x)) with
  | some v => aput d (key x) v
  | none => d

theorem aget_stepPut_ne {α β : Type} (key : β → String) (f : β → Option α → Option α)
    (d : List (String × α)) (x : β) (k : String) (h : k ≠ key x) :
    aget (stepPut key f d x) k = aget d k := by
  unfold stepPut
  cases f x (aget d (key x)) with
  | none => rfl
  | some v => exact aget_aput_ne d (key x) k v h

theorem aget_stepPut_self {α β : Type} (key : β → String) (f : β → Option α → Option α)
    (d : List (String × α)) (x : β) :
    aget (stepPut key f d x) (key x) =
      match f x (aget d (key x)) with
      | some v => some v
      | none => aget d (key x) := by
  unfold stepPut
  cases f x (aget d (key x)) with
  | none => rfl
  | some v => simp

theorem stepPut_keys_nodup {α β : Type} (key : β → String) (f : β → Option α → Option α)
    (d : List (String × α)) (x : β) (h : (d.map Prod.fst).Nodup) :
    ((stepPut key f d x).map Prod.fst).Nodup := by
  unfold stepPut
  cases f x (aget d (key x)) with
  | none => exact h
  | some v => exact aput_keys_nodup' d (key x) v h

theorem foldl_stepPut_keys_nodup {α β : Type} (key : β → String)
    (f : β → Option α → Option α) (l : List β) (acc : List (String × α))
    (h : (acc.map Prod.fst).Nodup) :
    ((l.foldl (stepPut key f) acc).map Prod.fst).Nodup := by
  induction l generalizing acc with
  | nil => exact h
  | cons y ys ih => exact ih _ (stepPut_keys_nodup key f acc y h)

/-- If no element of the loop targets key `k`, the binding at `k` is
untouched. -/
theorem aget_foldl_stepPut_of_find_none {α β : Type} (key : β → String)
    (f : β → Option α → Option α) (l : List β) (acc : List (String × α)) (k : String)
    (hfind : l.find? (fun x => key x == k) = none) :
    aget (l.foldl (stepPut key f) acc) k = aget acc k := by
  induction l generalizing acc with
  | nil => rfl
  | cons y ys ih =>
    rw [List.find?_cons] at hfind
    cases hb : key y == k with
    | true => rw [hb] at hfind; exact absurd hfind (by simp)
    | false =>
      rw [hb] at hfind
      simp only [List.foldl_cons]
      rw [ih _ hfind, aget_stepPut_ne]
      exact fun hc => by rw [hc] at hb; simp at hb

/-- If the loop's first (and, keys being duplicate-free, only) element
targeting `k` is `x`, the final binding at `k` is decided by `f x` applied to
the initial binding. -/
theorem aget_foldl_stepPut_of_find_some {α β : Type} (key : β → String)
    (f : β → Option α → Option α) (l : List β) (acc : List (String × α)) (k : String)
    (x : β) (hnodup : (l.map key).Nodup)
    (hfind : l.find? (fun x => key x == k) = some x) :
    aget (l.foldl (stepPut key f) acc) k =
      match f x (aget acc k) with
      | some v => some v
      | none => aget acc k := by
  induction l generalizing acc with
  | nil => simp at hfind
  | cons y ys ih =>
    rw [List.find?_cons] at hfind
    simp only [List.map_cons, List.nodup_cons] at hnodup
    cases hb : key y == k with
    | true =>
      rw [hb] at hfind
      have hx : x = y := by simpa using hfind.symm
      have hk : key y = k := eq_of_beq hb
      subst hx
      have hnone : ys.find? (fun z => key z == k) = none := by
        rw [List.find?_eq_none]
        intro z hz hc
        exact hnodup.1 (by rw [hk, ← eq_of_beq hc]; exact List.mem_map_of_mem key hz)
      simp only [List.foldl_cons]
      rw [aget_foldl_stepPut_of_find_none key f ys _ k hnone, ← hk,
        aget_stepPut_self key f acc x]
    | false =>
      rw [hb] at hfind
      simp only [List.foldl_cons]
      rw [ih _ hnodup.2 hfind, aget_stepPut_ne]
      exact fun hc => by rw [hc] at hb; simp at hb

/-- A loop whose body never fires leaves the map unchanged. -/
theorem foldl_stepPut_of_none {α β : Type} (key : β → String)
    (f : β → Option α → Option α) (l : List β) (acc : List (String × α))
    (h : ∀ x ∈ l, ∀ cur, f x cur = none) :
    l.foldl (stepPut key f) acc = acc := by
  induction l generalizing acc with
  | nil => rfl
  | cons y ys ih =>
    simp only [List.foldl_cons]
    have : stepPut key f acc y = acc := by
      unfold stepPut
      rw [h y (List.mem_cons_self y ys) _]
    rw [this]
    exact ih _ (fun x hx => h x (List.mem_cons_of_mem y hx))

/-! ## Dynamic Go values -/

/-- The Go integer types that can sit in an `any`.  Go's type switch
`case int, int64, int32, int16, int8, uint, uint64, uint32, uint16, uint8`
binds the value at interface type, so the dynamic type tag matters for
comparisons. -/
inductive IntTy where
  | i | i64 | i32 | i16 | i8 | u | u64 | u32 | u16 | u8
  deriving Repr, DecidableEq

/-- A dynamic Go value (`any`) as it flows through the request pipeline.
`time.Time` is abstracted to an integer tick count whose zero value is the
zero time; Go floats are modelled as rationals (the claims only exercise
exact values such as 0). -/
inductive GoValue where
  | vnil
  | vstring (s : String)
  | vints (t : IntTy) (n : Int)
  | vfloat32 (q : ℚ)
  | vfloat64 (q : ℚ)
  | vbool (b : Bool)
  | vtime (t : Int)
  | vbytes (s : String)
  deriving Repr, DecidableEq

/-- A Go `map[string]any`. -/
abbrev GoMap := List (String × GoValue)

/-- `define.ColumnInfo`, the per-column catalog record (the fields the
embedded code reads). -/
structure ColumnInfo where
  name : String
  dataType : String
  comment : String := ""
  isPrimaryKey : Bool := false
  isAutoIncrement : Bool := false
  deriving Repr, DecidableEq

/-- The column catalog: `map[string]define.ColumnInfo`, keyed by column
name (`QueryBuilder.columnCache`). -/
abbrev Catalog := List (String × ColumnInfo)

/-- `define.OpType` comparison operators. -/
inductive OpType where
  | opEq | opNe | opGt | opGe | opLt | opLe | opIn | opNotIn
  | opIsNull | opIsNotNull | opBetween | opNotBetween | opLike | opNotLike
  deriving Repr, DecidableEq

/-! ## strconv models -/

/-- Value of a non-empty all-decimal-digit character list, `none` otherwise
(the digit loop shared by Go's `strconv.ParseInt`/`ParseUint` at base 10). -/
def decDigits : List Char → Option Nat
  | [] => none
  | cs =>
    cs.foldl (fun acc c =>
      match acc with
      | none => none
      | some n => if c.isDigit then some (n * 10 + (c.toNat - 48)) else none)
      (some 0)

/-- The signed decimal literals accepted by `strconv.ParseInt(s, 10, _)`
before the range check: an optional sign, then one or more digits. -/
def signedDec : String → Option Int
  | s =>
    match s.data with
    | '+' :: rest => (decDigits rest).map (fun n => (n : Int))
    | '-' :: rest => (decDigits rest).map (fun n => -(n : Int))
    | cs => (decDigits cs).map (fun n => (n : Int))

/-- `strconv.ParseInt(v, 10, bitSize)`: parse, then validate the value
against the signed range of the given width. -/
def goParseInt (s : String) (bitSize : Nat) : Except String Int :=
  match signedDec s with
  | none => .error "invalid syntax"
  | some v =>
    if v < -(2 ^ (bitSize - 1)) ∨ (2 : Int) ^ (bitSize - 1) - 1 < v then
      .error "value out of range"
    else .ok v

/-- `strconv.ParseUint(v, 10, bitSize)`: no sign permitted, value validated
against the unsigned range of the given width. -/
def goParseUint (s : String) (bitSize : Nat) : Except String Nat :=
  match decDigits s.data with
  | none => .error "invalid syntax"
  | some n =>
    if (2 : Nat) ^ bitSize - 1 < n then .error "value out of range"
    else .ok n

/-- `strconv.Atoi(v)` = `ParseInt(v, 10, 0)`, i.e. the platform `int`
width (64 bits here). -/
def goAtoi (s : String) : Except String Int := goParseInt s 64

/-- `strconv.ParseBool`: exactly the canonical literals. -/
def goParseBool (s : String) : Except String Bool :=
  if s ∈ ["1", "t", "T", "TRUE", "true", "True"] then .ok true
  else if s ∈ ["0", "f", "F", "FALSE", "false", "False"] then .ok false
  else .error "invalid syntax"

/-! ## The type coercion engine: `TransferType` (crud.go 971-1112)

`parseTime` is an oracle for Go's `time.Parse` tried over the function's
format list (`some t` iff some format matches); `parseFloat` is an oracle for
`strconv.ParseFloat` at the given bit size.  Both belong to the Go standard
library, not to this repository. -/

def TransferType (parseTime : String → Option Int) (parseFloat : Nat → String → Option ℚ)
    (column : ColumnInfo) : String → Except String GoValue :=
  match column.dataType with
  | "string" => fun v => .ok (.vstring v)
  | "int8" => fun v =>
    match goParseInt v 8 with
    | .error e => .error e
    | .ok val => .ok (.vints .i64 val)
  | "int16" => fun v =>
    match goParseInt v 16 with
    | .error e => .error e
    | .ok val => .ok (.vints .i64 val)
  | "int32" => fun v =>
    match goParseInt v 32 with
    | .error e => .error e
    | .ok val => .ok (.vints .i64 val)
  | "bool" => fun v =>
    match goParseBool v with
    | .error e => .error e
    | .ok val => .ok (.vbool val)
  | "time.Time" => fun v =>
    match parseTime v with
    | some t => .ok (.vtime t)
    | none => .error "cannot parse time"
  | "uint8" => fun v =>
    match goParseUint v 8 with
    | .error e => .error e
    | .ok val => .ok (.vints .u8 val)
  | "uint16" => fun v =>
    match goParseUint v 16 with
    | .error e => .error e
    | .ok val => .ok (.vints .u16 val)
  | "uint32" => fun v =>
    match goParseUint v 32 with
    | .error e => .error e
    | .ok val => .ok (.vints .u32 val)
  | "uint64" => fun v =>
    match goParseUint v 64 with
    | .error e => .error e
    | .ok val => .ok (.vints .u64 val)
  | "float32" => fun v =>
    match parseFloat 32 v with
    | some q => .ok (.vfloat32 q)
    | none => .error "invalid syntax"
  | "float64" => fun v =>
    match parseFloat 64 v with
    | some q => .ok (.vfloat64 q)
    | none => .error "invalid syntax"
  | "[]byte" => fun v => .ok (.vbytes v)
  | "[]uint8" => fun v => .ok (.vbytes v)
  | _ => fun v => .ok (.vstring v)

/-! ## `KeyToKeyOp` (crud.go 1114-1156) -/

/-- Index of the last occurrence of `c`, as `strings.LastIndex`. -/
def lastIdx (cs : List Char) (c : Char) : Option Nat :=
  match cs with
  | [] => none
  | d :: rest =>
    match lastIdx rest c with
    | some i => some (i + 1)
    | none => if d = c then some 0 else none

/-- The operator-suffix table of `KeyToKeyOp`; unrecognized suffixes keep
the `OpEq` default. -/
def opOfSuffix (opStr : String) : OpType :=
  match opStr with
  | "eq" => .opEq
  | "ne" => .opNe
  | "gt" => .opGt
  | "ge" => .opGe
  | "lt" => .opLt
  | "le" => .opLe
  | "in" => .opIn
  | "notIn" => .opNotIn
  | "isNull" => .opIsNull
  | "isNotNull" => .opIsNotNull
  | "between" => .opBetween
  | "notBetween" => .opNotBetween
  | "like" => .opLike
  | "notLike" => .opNotLike
  | _ => .opEq

/-- Split a query key on its last underscore into field and operator;
no underscore means the whole key with `OpEq`. -/
def KeyToKeyOp (key : String) : String × OpType :=
  match lastIdx key.data '_' with
  | none => (key, .opEq)
  | some i =>
    (String.mk (key.data.take i), opOfSuffix (String.mk (key.data.drop (i + 1))))

/-! ## `QueryValuesToValues` (crud.go 952-967) -/

/-- A coerced condition value: `any` that is either one typed scalar or a
`[]any` of typed scalars. -/
inductive CondValue where
  | scalar (v : GoValue)
  | list (vs : List GoValue)
  deriving Repr, DecidableEq

/-- The value-coercion loop of `QueryValuesToValues`: apply the transfer
function to each string, aborting on the first error (Go returns
`nil, err` from inside the loop). -/
def coerceAll (tt : String → Except String GoValue) :
    List String → Except String (List GoValue)
  | [] => .ok []
  | v :: rest =>
    match tt v with
    | .error e => .error e
    | .ok w =>
      match coerceAll tt rest with
      | .error e => .error e
      | .ok ws => .ok (w :: ws)

/-- `QueryValuesToValues`: coerce every string through the column's
transfer function; a single input string yields the bare scalar
(`anyValues[0]`), otherwise the whole list is returned. -/
def QueryValuesToValues (parseTime : String → Option Int)
    (parseFloat : Nat → String → Option ℚ) (op : OpType) (values : List String)
    (column : ColumnInfo) : Except String CondValue :=
  let transferTypeFunc := TransferType parseTime parseFloat column
  match coerceAll transferTypeFunc values with
  | .error e => .error e
  | .ok anyValues =>
    if values.length = 1 then .ok (.scalar (anyValues.headD .vnil))
    else .ok (.list anyValues)

/-! ## `RequestToQueryParamsTransfer` (crud.go 872-950) -/

/-- `ConditionParam`. -/
structure ConditionParam where
  key : String
  op : OpType
  values : CondValue
  deriving Repr, DecidableEq

/-- `QueryParams`; `page` and `pageSize` start at Go's zero value 0. -/
structure QueryParams where
  table : String
  page : Int := 0
  pageSize : Int := 0
  conditionParams : List ConditionParam := []
  orderBy : List String := []
  orderByDesc : List String := []
  deriving Repr, DecidableEq

/-- `strings.Split(s, sep)` for a one-character separator, over character
lists: Go returns the (possibly empty) runs between separators, and a lone
empty string for empty input. -/
def splitChars (sep : Char) : List Char → List (List Char)
  | [] => [[]]
  | c :: rest =>
    if c = sep then [] :: splitChars sep rest
    else
      match splitChars sep rest with
      | [] => [[c]]
      | g :: gs => (c :: g) :: gs

/-- `strings.Split(v, ",")`. -/
def goSplitComma (s : String) : List String :=
  (splitChars ',' s.data).map (fun cs => String.mk cs)

/-- Translate each comma-separated `orderBy`/`orderByDesc` element through
the field map, passing unmapped names through. -/
def translateEach (transferMap : List (String × String)) (values : List String) :
    List String :=
  values.map (fun vi =>
    match aget transferMap vi with
    | some vk => vk
    | none => vi)

/-- The query key after the operator suffix is stripped and the field map
applied (the `key` the condition branch looks up in the catalog). -/
def resolvedKey (transferMap : List (String × String)) (k : String) : String :=
  match aget transferMap (KeyToKeyOp k).1 with
  | some newKey => newKey
  | none => (KeyToKeyOp k).1

/-- One iteration of the `VisitAll` closure over the query string: a `return`
inside the Go closure skips the key, leaving the accumulated `queryParams`
unchanged. -/
def rqptStep (transferMap : List (String × String)) (columnMap : Catalog)
    (parseTime : String → Option Int) (parseFloat : Nat → String → Option ℚ)
    (queryParams : QueryParams) (kv : String × String) : QueryParams :=
  if kv.1 = "page" then
    match goAtoi kv.2 with
    | .error _ => queryParams
    | .ok page => { queryParams with page := if page < 1 then 1 else page }
  else if kv.1 = "pageSize" then
    match goAtoi kv.2 with
    | .error _ => queryParams
    | .ok pageSize =>
      { queryParams with pageSize := if pageSize < 1 then 10 else pageSize }
  else if kv.1 = "orderBy" then
    { queryParams with orderBy := translateEach transferMap (goSplitComma kv.2) }
  else if kv.1 = "orderByDesc" then
    { queryParams with
        orderByDesc := translateEach transferMap (goSplitComma kv.2) }
  else
    match aget columnMap (resolvedKey transferMap kv.1) with
    | none => queryParams
    | some column =>
      match QueryValuesToValues parseTime parseFloat (KeyToKeyOp kv.1).2
        (goSplitComma kv.2) column with
      | .error _ => queryParams
      | .ok val =>
        { queryParams with conditionParams :=
            queryParams.conditionParams
              ++ [⟨resolvedKey transferMap kv.1, (KeyToKeyOp kv.1).2, val⟩] }

/-- The whole `VisitAll` traversal, from the zero-valued `QueryParams`
carrying the table name. -/
def parseQueryFold (tableName : String) (transferMap : List (String × String))
    (columnMap : Catalog) (parseTime : String → Option Int)
    (parseFloat : Nat → String → Option ℚ) (query : List (String × String)) :
    QueryParams :=
  query.foldl (rqptStep transferMap columnMap parseTime parseFloat)
    { table := tableName }

/-- `RequestToQueryParamsTransfer`'s returned parser: it always returns the
accumulated `QueryParams` with a nil error. -/
def RequestToQueryParamsTransfer (tableName : String)
    (transferMap : List (String × String)) (columnMap : Catalog)
    (parseTime : String → Option Int) (parseFloat : Nat → String → Option ℚ)
    (query : List (String × String)) : Except String QueryParams :=
  .ok (parseQueryFold tableName transferMap columnMap parseTime parseFloat query)

/-! ## The field translator: `transferData` and `reverseMap`
(crud.go 323-379) -/

/-- The Go idiom `if val, ok := src[a]; ok { out[k] = val }`: write the
value at `k` when present, otherwise leave the map alone. -/
def condPut {α : Type} (out : List (String × α)) (k : String) (v : Option α) :
    List (String × α) :=
  match v with
  | some val => aput out k val
  | none => out

/-- `reverseMap`: invert the transfer map (storage name back to API name);
on a non-injective map, later entries of the iteration win. -/
def reverseMap (transferMap : List (String × String)) : List (String × String) :=
  transferMap.foldl (fun rm p => aput rm p.2 p.1) []

/-- `transferData(input, reverse)`: copy `id` verbatim; with an empty map copy
everything; otherwise rename every mapped key and copy unmapped non-`id` keys
unchanged.  The Go function's error result is always nil, so the map alone is
returned. -/
def transferData (transferMap : List (String × String)) (input : GoMap)
    (reverse : Bool) : GoMap :=
  let output : GoMap :=
    match aget input "id" with
    | some v => [("id", v)]
    | none => []
  if transferMap.isEmpty then
    input.foldl (fun out p => if p.1 ≠ "id" then aput out p.1 p.2 else out) output
  else if reverse then
    let output :=
      transferMap.foldl (fun out p => condPut out p.1 (aget input p.2)) output
    input.foldl (fun out p =>
      if (aget (reverseMap transferMap) p.1).isNone ∧ p.1 ≠ "id" then
        aput out p.1 p.2
      else out) output
  else
    let output :=
      transferMap.foldl (fun out p => condPut out p.2 (aget input p.1)) output
    input.foldl (fun out p =>
      if (aget transferMap p.1).isNone ∧ p.1 ≠ "id" then
        aput out p.1 p.2
      else out) output

/-! ## `isPrimaryKeyValid` (crud.go 531-551) -/

/-- The comparison `v != 0` in the integer branch of `isPrimaryKeyValid`.
`v` there has interface type (the case lists several types), and the untyped
constant 0 defaults to `int`; interface equality in Go requires identical
dynamic types, so only a value of dynamic type `int` can compare equal. -/
def eqUntypedIntZero (t : IntTy) (n : Int) : Bool :=
  t == IntTy.i && n == 0

/-- Is a primary-key value "valid" (the significance test of the save
operation)?  The `vbool`, `vtime` and `vbytes` branches fall to the Go
default case `fmt.Sprintf("%v", v)`, whose output for those types is never
the empty string or the literal "0". -/
def isPrimaryKeyValid : GoValue → Bool
  | .vnil => false
  | .vstring s => s != "" && s != "0"
  | .vints t n => !(eqUntypedIntZero t n)
  | .vfloat32 q => decide ((1 : ℚ) / 10 ^ 10 < |q|)
  | .vfloat64 q => decide ((1 : ℚ) / 10 ^ 10 < |q|)
  | .vbool _ => true
  | .vtime _ => true
  | .vbytes _ => true

/-- The update-detection step of `saveOperation` (crud.go 404-411): an update
exactly when the primary-key field is present and its value passes
`isPrimaryKeyValid`. -/
def saveIsUpdate (primaryKey : String) (data : GoMap) : Bool :=
  match aget data primaryKey with
  | some pkVal => isPrimaryKeyValid pkVal
  | none => false

/-! ## Auto-timestamp policy of `saveOperation` (crud.go 413-474) and
`isTimeField` (crud.go 1212-1226) -/

/-- The substrings that make a declared type "time-like". -/
def timeTypes : List String :=
  ["time", "date", "timestamp", "datetime", "timestamptz",
   "time.Time", "Time", "DATE", "TIMESTAMP", "DATETIME"]

/-- Does the second character list start with the first? -/
def startsWithChars : List Char → List Char → Bool
  | [], _ => true
  | _ :: _, [] => false
  | a :: as, b :: bs => a == b && startsWithChars as bs

/-- Does the second character list contain the first as a contiguous run? -/
def containsChars (sub : List Char) : List Char → Bool
  | [] => startsWithChars sub []
  | c :: rest => startsWithChars sub (c :: rest) || containsChars sub rest

/-- `strings.Contains`. -/
def strContains (s sub : String) : Bool :=
  containsChars sub.data s.data

/-- `strings.ToLower` (ASCII case folding suffices for the type names the
code compares). -/
def strToLower (s : String) : String :=
  String.mk (s.data.map Char.toLower)

/-- `isTimeField`: the lower-cased declared type contains one of the
lower-cased time-type names. -/
def isTimeField (dataType : String) : Bool :=
  let dataTypeLower := strToLower dataType
  timeTypes.any (fun tt => strContains dataTypeLower (strToLower tt))

/-- The per-field fill test of the insert branch: fill when the field is
absent, nil, an empty or unparsable string, a zero `time.Time`, or any other
kind of value.  `parseTimeOk` is the oracle telling whether
`parseTimeWithMultipleFormats` succeeds on a string. -/
def shouldFillTime (parseTimeOk : String → Bool) : Option GoValue → Bool
  | none => true
  | some .vnil => true
  | some (.vstring s) => if s = "" then true else !(parseTimeOk s)
  | some (.vtime t) => t == 0
  | some _ => true

/-- The insert-branch loop of `saveOperation`: for every catalog column of a
time type whose supplied value is unusable, set the current time. -/
def insertAutoFill (parseTimeOk : String → Bool) (now : Int)
    (columnInfo : Catalog) (data : GoMap) : GoMap :=
  columnInfo.foldl (fun d entry =>
    if isTimeField entry.2.dataType ∧ shouldFillTime parseTimeOk (aget d entry.1) then
      aput d entry.1 (.vtime now)
    else d) data

/-- The field names the update branch auto-populates. -/
def updateTimeFieldNames : List String :=
  ["update_at", "updated_at", "update_time", "modification_time", "modified_at"]

/-- The update-branch loop of `saveOperation`: only the update-time
conventional names, only when they are catalog time columns, and only when
the field is absent or nil. -/
def updateAutoFill (now : Int) (columnInfo : Catalog) (data : GoMap) : GoMap :=
  updateTimeFieldNames.foldl (fun d fieldName =>
    match aget columnInfo fieldName with
    | some col =>
      if isTimeField col.dataType then
        if (aget d fieldName).isNone ∨ aget d fieldName = some .vnil then
          aput d fieldName (.vtime now)
        else d
      else d
    | none => d) data

/-- The whole timestamp-fill phase of `saveOperation`, dispatching on
insert versus update. -/
def saveAutoFill (parseTimeOk : String → Bool) (now : Int) (columnInfo : Catalog)
    (data : GoMap) (isUpdate : Bool) : GoMap :=
  if isUpdate then updateAutoFill now columnInfo data
  else insertAutoFill parseTimeOk now columnInfo data

/-! ## `getOperation` (crud.go 731-765), the render helpers (server.go) and
the get pipeline -/

/-- Response-envelope codes (crud.go 18-23). -/
def SuccessCode : Int := 200

def ErrorCode : Int := 500

/-- What `chain.First()` hands back from the row store: a possible error
message and the (at most one) matching row. -/
structure StoreResult where
  error : Option String
  data : List GoMap
  deriving Repr, DecidableEq

/-- `getOperation`: a "no rows" error or an empty row set both return an
empty object with a nil error; a found row is reverse-translated; any other
store error is wrapped and propagated. -/
def getOperation (transferMap : List (String × String)) (first : StoreResult) :
    Except String GoMap :=
  match first.error with
  | some e =>
    if strContains e "no rows" then .ok []
    else .error ("get failed: " ++ e)
  | none =>
    match first.data with
    | [] => .ok []
    | row :: _ => .ok (transferData transferMap row true)

/-- The uniform response envelope `CodeMsg`. -/
structure CodeMsg where
  code : Int
  message : String
  data : Option GoMap
  deriving Repr, DecidableEq

/-- `RenderJson`. -/
def RenderJson (code : Int) (msg : String) (data : Option GoMap) : CodeMsg :=
  ⟨code, msg, data⟩

/-- `RenderOk`: the fixed success sentinel 200. -/
def RenderOk (data : Option GoMap) : CodeMsg :=
  RenderJson 200 "ok" data

/-- `RenderErrs` on a non-nil error: the fixed failure sentinel 500. -/
def RenderErrs (errMsg : String) : CodeMsg :=
  RenderJson 500 errMsg none

/-- The get handler's `TransferResultFunc`: nil passes through, a map is
reverse-translated. -/
def getTransferResult (transferMap : List (String × String)) :
    Option GoMap → Except String (Option GoMap)
  | none => .ok none
  | some m => .ok (some (transferData transferMap m true))

/-- `RequestHandler.Handle` specialised to the get route: run the data
operation, then the result transfer, then render success or failure. -/
def getHandlerPipeline (transferMap : List (String × String))
    (first : StoreResult) : CodeMsg :=
  match getOperation transferMap first with
  | .error e => RenderErrs e
  | .ok m =>
    match getTransferResult transferMap (some m) with
    | .error e => RenderErrs e
    | .ok d => RenderOk d

/-! ## `deleteOperation`, batch mode (crud.go 610-644) -/

/-- What the batch arm returns: the affected-row count and the echoed id
list (`map[string]any` with keys `deleted_count` and `ids`). -/
structure DeleteResult where
  deletedCount : Int
  echoedIds : List GoValue
  deriving Repr, DecidableEq

/-- The batch-mode arm of `deleteOperation`.  `exec` is the row-store oracle
for `Raw(DELETE ... WHERE pk IN (...)).Exec()` followed by `RowsAffected()`,
yielding the affected count or a store error.  The second component records
the id list of every DELETE statement issued, so that "no query was issued"
is visible in the model. -/
def deleteOperationBatch (exec : List GoValue → Except String Int)
    (ids : List GoValue) : Except String DeleteResult × List (List GoValue) :=
  if ids.length = 0 then
    (.error "ids cannot be empty", [])
  else
    match exec ids with
    | .error e => (.error ("batch delete failed: " ++ e), [ids])
    | .ok rowsAffected => (.ok ⟨rowsAffected, ids⟩, [ids])

/-! ## Helper lemmas about the query-parameter parser -/

theorem aget_eq_find? {α : Type} (m : List (String × α)) (k : String) :
    aget m k = (m.find? (fun p => p.1 == k)).map Prod.snd := by
  induction m with
  | nil => rfl
  | cons p rest ih =>
    cases hb : p.1 == k with
    | true => simp [aget, List.find?_cons, hb]
    | false => simp [aget, List.find?_cons, hb, ih]

theorem find?_fst_eq_none_iff {α : Type} (m : List (String × α)) (k : String) :
    m.find? (fun p => p.1 == k) = none ↔ k ∉ m.map Prod.fst := by
  rw [List.find?_eq_none]
  constructor
  · intro h hk
    obtain ⟨p, hp, hpk⟩ := List.mem_map.mp hk
    exact h p hp (by simp [hpk])
  · intro h p hp hpk
    exact h (List.mem_map.mpr ⟨p, hp, by simpa using hpk⟩)

theorem find?_snd_eq_none_iff (m : List (String × String)) (k : String) :
    m.find? (fun p => p.2 == k) = none ↔ k ∉ m.map Prod.snd := by
  rw [List.find?_eq_none]
  constructor
  · intro h hk
    obtain ⟨p, hp, hpk⟩ := List.mem_map.mp hk
    exact h p hp (by simp [hpk])
  · intro h p hp hpk
    exact h (List.mem_map.mpr ⟨p, hp, by simpa using hpk⟩)

theorem aget_eq_none_iff {α : Type} (m : List (String × α)) (k : String) :
    aget m k = none ↔ k ∉ m.map Prod.fst := by
  rw [aget_eq_find?, Option.map_eq_none', find?_fst_eq_none_iff]

/-- Dropping a query entry whose `VisitAll` step is a no-op does not change
the parse result. -/
theorem parseQueryFold_skip (tableName : String) (tm : List (String × String))
    (cat : Catalog) (pt : String → Option Int) (pf : Nat → String → Option ℚ)
    (pre post : List (String × String)) (kv : String × String)
    (hstep : ∀ qp, rqptStep tm cat pt pf qp kv = qp) :
    parseQueryFold tableName tm cat pt pf (pre ++ kv :: post)
      = parseQueryFold tableName tm cat pt pf (pre ++ post) := by
  unfold parseQueryFold
  rw [List.foldl_append, List.foldl_append, List.foldl_cons, hstep]

/-- Every step of the parser either leaves the condition list alone or
appends one condition whose key is present in the catalog. -/
theorem rqptStep_conditionParams (tm : List (String × String)) (cat : Catalog)
    (pt : String → Option Int) (pf : Nat → String → Option ℚ)
    (qp : QueryParams) (kv : String × String) :
    (rqptStep tm cat pt pf qp kv).conditionParams = qp.conditionParams
    ∨ ∃ cp, (aget cat cp.key).isSome
        ∧ (rqptStep tm cat pt pf qp kv).conditionParams
            = qp.conditionParams ++ [cp] := by
  unfold rqptStep
  by_cases h1 : kv.1 = "page"
  · rw [if_pos h1]
    cases goAtoi kv.2 with
    | error e => exact Or.inl rfl
    | ok p => exact Or.inl rfl
  rw [if_neg h1]
  by_cases h2 : kv.1 = "pageSize"
  · rw [if_pos h2]
    cases goAtoi kv.2 with
    | error e => exact Or.inl rfl
    | ok p => exact Or.inl rfl
  rw [if_neg h2]
  by_cases h3 : kv.1 = "orderBy"
  · rw [if_pos h3]; exact Or.inl rfl
  rw [if_neg h3]
  by_cases h4 : kv.1 = "orderByDesc"
  · rw [if_pos h4]; exact Or.inl rfl
  rw [if_neg h4]
  cases hcol : aget cat (resolvedKey tm kv.1) with
  | none => left; simp
  | some column =>
    cases hval : QueryValuesToValues pt pf (KeyToKeyOp kv.1).2
        (goSplitComma kv.2) column with
    | error e => left; simp [hval]
    | ok val =>
      right
      refine ⟨⟨resolvedKey tm kv.1, (KeyToKeyOp kv.1).2, val⟩, by simp [hcol], ?_⟩
      simp [hval]

/-- Invariant: every condition the parser accumulates has a catalog key. -/
theorem parseQueryFold_conditions_known (tm : List (String × String)) (cat : Catalog)
    (pt : String → Option Int) (pf : Nat → String → Option ℚ)
    (q : List (String × String)) (qp0 : QueryParams)
    (h0 : ∀ cp ∈ qp0.conditionParams, (aget cat cp.key).isSome) :
    ∀ cp ∈ (q.foldl (rqptStep tm cat pt pf) qp0).conditionParams,
      (aget cat cp.key).isSome := by
  induction q generalizing qp0 with
  | nil => exact h0
  | cons kv rest ih =>
    simp only [List.foldl_cons]
    apply ih
    rcases rqptStep_conditionParams tm cat pt pf qp0 kv with h | ⟨cp, hcp, h⟩
    · rw [h]; exact h0
    · rw [h]
      intro c hc
      rcases List.mem_append.mp hc with hc | hc
      · exact h0 c hc
      · simp at hc; subst hc; exact hcp

/-! ## Claim C3 -/

/-- C3 counterexample: a `page` value that does not parse as an integer does
NOT fail the request — the parser returns success with the key silently
ignored (`page` keeps its zero default), refuting the claimed
invalid-parameter error. -/
theorem claim_C3_counterexample :
    RequestToQueryParamsTransfer "t" [] [] (fun _ => none) (fun _ _ => none)
      [("page", "abc")] = .ok { table := "t", page := 0 } := rfl

/-- C3 (amended): an unparsable `page`/`pageSize` entry is silently skipped
(the whole request still succeeds and the entry has no effect), while a
parseable non-positive value is clamped: `page < 1` becomes 1 and
`pageSize < 1` becomes 10, so `page=0`, `page=-5` normalize to 1 and
`pageSize=0` normalizes to 10. -/
theorem claim_C3_amended (tableName : String) (tm : List (String × String))
    (cat : Catalog) (pt : String → Option Int) (pf : Nat → String → Option ℚ)
    (k v e : String) (hk : k = "page" ∨ k = "pageSize")
    (he : goAtoi v = .error e) (pre post : List (String × String)) :
    (parseQueryFold tableName tm cat pt pf (pre ++ (k, v) :: post)
      = parseQueryFold tableName tm cat pt pf (pre ++ post))
    ∧ (RequestToQueryParamsTransfer tableName tm cat pt pf
        (pre ++ (k, v) :: post)).isOk = true
    ∧ (∀ qp p w, goAtoi w = .ok p →
        rqptStep tm cat pt pf qp ("page", w)
          = { qp with page := if p < 1 then 1 else p })
    ∧ (∀ qp p w, goAtoi w = .ok p →
        rqptStep tm cat pt pf qp ("pageSize", w)
          = { qp with pageSize := if p < 1 then 10 else p })
    ∧ (parseQueryFold tableName tm cat pt pf [("page", "0")]).page = 1
    ∧ (parseQueryFold tableName tm cat pt pf [("page", "-5")]).page = 1
    ∧ (parseQueryFold tableName tm cat pt pf [("pageSize", "0")]).pageSize = 10 := by
  refine ⟨?_, rfl, ?_, ?_, ?_, ?_, ?_⟩
  · apply parseQueryFold_skip
    intro qp
    rcases hk with hk | hk <;> subst hk <;> simp [rqptStep, he]
  · intro qp p w hw; simp [rqptStep, hw]
  · intro qp p w hw; simp [rqptStep, hw]
  · simp [parseQueryFold, rqptStep, show goAtoi "0" = .ok 0 from rfl]
  · simp [parseQueryFold, rqptStep, show goAtoi "-5" = .ok (-5) from rfl]
  · simp [parseQueryFold, rqptStep, show goAtoi "0" = .ok 0 from rfl]

/-- C3 witness: the amended theorem applied to `page=abc` glued between two
other entries. -/
theorem claim_C3_witness :
    parseQueryFold "t" [] [] (fun _ => none) (fun _ _ => none)
      [("pageSize", "7"), ("page", "abc"), ("page", "3")]
      = parseQueryFold "t" [] [] (fun _ => none) (fun _ _ => none)
        [("pageSize", "7"), ("page", "3")] :=
  (claim_C3_amended "t" [] [] (fun _ => none) (fun _ _ => none) "page" "abc"
    "invalid syntax" (Or.inl rfl) rfl [("pageSize", "7")] [("page", "3")]).1

/-! ## Claim C6 -/

/-- C6: a query key whose translated field is not in the catalog never makes
the parse fail; it contributes no condition (removing it leaves the parse
result unchanged, and every accumulated condition has a catalog key), and
the other keys of the same request are still parsed. -/
theorem claim_C6 (tableName : String) (tm : List (String × String)) (cat : Catalog)
    (pt : String → Option Int) (pf : Nat → String → Option ℚ) (k v : String)
    (h1 : k ≠ "page") (h2 : k ≠ "pageSize") (h3 : k ≠ "orderBy")
    (h4 : k ≠ "orderByDesc") (habs : aget cat (resolvedKey tm k) = none)
    (pre post : List (String × String)) :
    (parseQueryFold tableName tm cat pt pf (pre ++ (k, v) :: post)
      = parseQueryFold tableName tm cat pt pf (pre ++ post))
    ∧ (RequestToQueryParamsTransfer tableName tm cat pt pf
        (pre ++ (k, v) :: post)).isOk = true
    ∧ (∀ cp ∈ (parseQueryFold tableName tm cat pt pf
          (pre ++ (k, v) :: post)).conditionParams, (aget cat cp.key).isSome) := by
  refine ⟨?_, rfl, ?_⟩
  · apply parseQueryFold_skip
    intro qp
    simp [rqptStep, h1, h2, h3, h4, habs]
  · apply parseQueryFold_conditions_known
    intro cp hcp
    simp at hcp

/-- C6 witness: a stray unknown key between two known conditions is dropped
while the rest of the request parses. -/
theorem claim_C6_witness :
    parseQueryFold "t" [] [("name", ⟨"name", "string", "", false, false⟩)]
      (fun _ => none) (fun _ _ => none)
      [("name_eq", "bob"), ("stray_eq", "zz"), ("page", "2")]
      = parseQueryFold "t" [] [("name", ⟨"name", "string", "", false, false⟩)]
        (fun _ => none) (fun _ _ => none) [("name_eq", "bob"), ("page", "2")] :=
  (claim_C6 "t" [] [("name", ⟨"name", "string", "", false, false⟩)]
    (fun _ => none) (fun _ _ => none) "stray_eq" "zz"
    (by decide) (by decide) (by decide) (by decide) rfl
    [("name_eq", "bob")] [("page", "2")]).1

/-! ## Claim C7 -/

/-- C7: when coercion of one condition's values fails, only that condition is
dropped — the parse still succeeds and removing the bad entry leaves the
result unchanged, so all surviving conditions are processed. -/
theorem claim_C7 (tableName : String) (tm : List (String × String)) (cat : Catalog)
    (pt : String → Option Int) (pf : Nat → String → Option ℚ) (k v e : String)
    (column : ColumnInfo)
    (h1 : k ≠ "page") (h2 : k ≠ "pageSize") (h3 : k ≠ "orderBy")
    (h4 : k ≠ "orderByDesc") (hcol : aget cat (resolvedKey tm k) = some column)
    (he : QueryValuesToValues pt pf (KeyToKeyOp k).2 (goSplitComma v) column
      = .error e)
    (pre post : List (String × String)) :
    (parseQueryFold tableName tm cat pt pf (pre ++ (k, v) :: post)
      = parseQueryFold tableName tm cat pt pf (pre ++ post))
    ∧ (RequestToQueryParamsTransfer tableName tm cat pt pf
        (pre ++ (k, v) :: post)).isOk = true := by
  refine ⟨?_, rfl⟩
  apply parseQueryFold_skip
  intro qp
  simp [rqptStep, h1, h2, h3, h4, hcol, he]

/-- C7 witness: `age_eq=abc` on an int32 column is dropped while the
surrounding entries still parse. -/
theorem claim_C7_witness :
    parseQueryFold "t" [] [("age", ⟨"age", "int32", "", false, false⟩)]
      (fun _ => none) (fun _ _ => none)
      [("age_gt", "20"), ("age_eq", "abc"), ("page", "2")]
      = parseQueryFold "t" [] [("age", ⟨"age", "int32", "", false, false⟩)]
        (fun _ => none) (fun _ _ => none) [("age_gt", "20"), ("page", "2")] :=
  (claim_C7 "t" [] [("age", ⟨"age", "int32", "", false, false⟩)]
    (fun _ => none) (fun _ _ => none) "age_eq" "abc" "invalid syntax"
    ⟨"age", "int32", "", false, false⟩
    (by decide) (by decide) (by decide) (by decide) rfl rfl
    [("age_gt", "20")] [("page", "2")]).1

/-! ## Claim C8 -/

/-- C8: coercing a condition's value list yields a bare typed scalar for
exactly one input string and a list of typed scalars otherwise; concretely,
`field_between=10,20` on an int32 column parses to the two-element integer
list [10, 20] while `age_eq=5` parses to the bare scalar 5, never `[5]`. -/
theorem claim_C8 (pt : String → Option Int) (pf : Nat → String → Option ℚ) :
    (∀ op column v w, TransferType pt pf column v = .ok w →
      QueryValuesToValues pt pf op [v] column = .ok (.scalar w))
    ∧ (∀ op column vs ws, coerceAll (TransferType pt pf column) vs = .ok ws →
        2 ≤ vs.length → QueryValuesToValues pt pf op vs column = .ok (.list ws))
    ∧ (parseQueryFold "t" [] [("field", ⟨"field", "int32", "", false, false⟩)]
        pt pf [("field_between", "10,20")]).conditionParams
        = [⟨"field", .opBetween, .list [.vints .i64 10, .vints .i64 20]⟩]
    ∧ (parseQueryFold "t" [] [("age", ⟨"age", "int32", "", false, false⟩)]
        pt pf [("age_eq", "5")]).conditionParams
        = [⟨"age", .opEq, .scalar (.vints .i64 5)⟩] := by
  refine ⟨?_, ?_, rfl, rfl⟩
  · intro op column v w h
    simp [QueryValuesToValues, coerceAll, h]
  · intro op column vs ws h hlen
    have hne : vs.length ≠ 1 := by omega
    simp [QueryValuesToValues, h, hne]

/-- C8 witness: the two general clauses applied at the two concrete
scenarios of the claim. -/
theorem claim_C8_witness :
    QueryValuesToValues (fun _ => none) (fun _ _ => none) .opEq ["5"]
      ⟨"age", "int32", "", false, false⟩ = .ok (.scalar (.vints .i64 5))
    ∧ QueryValuesToValues (fun _ => none) (fun _ _ => none) .opBetween
      ["10", "20"] ⟨"field", "int32", "", false, false⟩
      = .ok (.list [.vints .i64 10, .vints .i64 20]) :=
  ⟨(claim_C8 (fun _ => none) (fun _ _ => none)).1 .opEq
      ⟨"age", "int32", "", false, false⟩ "5" (.vints .i64 5) rfl,
   (claim_C8 (fun _ => none) (fun _ _ => none)).2.1 .opBetween
      ⟨"field", "int32", "", false, false⟩ ["10", "20"]
      [.vints .i64 10, .vints .i64 20] rfl (by decide)⟩

/-! ## Claim C9 -/

/-- Translating the empty row map yields the empty map, whatever the field
map and direction. -/
theorem transferData_nil (tm : List (String × String)) (reverse : Bool) :
    transferData tm [] reverse = [] := by
  unfold transferData
  simp only [aget_nil, List.foldl_nil]
  by_cases h : tm.isEmpty
  · rw [if_pos h]
  · rw [if_neg h]
    cases reverse with
    | true =>
      rw [if_pos rfl]
      exact List.foldl_fixed tm
    | false =>
      rw [if_neg (by simp)]
      exact List.foldl_fixed tm

/-- C9: a get whose conditions match zero rows (empty row set, or a store
error containing "no rows") renders the success envelope: code 200 (the
success sentinel, not the 500 error sentinel) with an empty object as
data. -/
theorem claim_C9 (tm : List (String × String)) (first : StoreResult)
    (hdata : first.data = [])
    (herr : ∀ e, first.error = some e → strContains e "no rows" = true) :
    getHandlerPipeline tm first = RenderOk (some [])
    ∧ (getHandlerPipeline tm first).code = SuccessCode
    ∧ (getHandlerPipeline tm first).code ≠ ErrorCode := by
  have hop : getOperation tm first = .ok [] := by
    unfold getOperation
    cases he : first.error with
    | some e => simp [herr e he]
    | none => simp [hdata]
  have : getHandlerPipeline tm first = RenderOk (some []) := by
    unfold getHandlerPipeline
    rw [hop]
    simp [getTransferResult, transferData_nil]
  exact ⟨this, by rw [this]; rfl, by rw [this]; decide⟩

/-- C9 witness: a store answer with no error and no rows renders code 200
with an empty object. -/
theorem claim_C9_witness :
    getHandlerPipeline [("userName", "name")] ⟨none, []⟩ = RenderOk (some []) :=
  (claim_C9 [("userName", "name")] ⟨none, []⟩ rfl (fun e h => by cases h)).1

/-! ## Claim C10 -/

/-- C10: a batch delete with an empty id list fails with "ids cannot be
empty" and issues no DELETE against the row store, while a non-empty id list
that happens to delete zero rows succeeds with count 0 (and echoes the
requested ids). -/
theorem claim_C10 (exec : List GoValue → Except String Int) :
    deleteOperationBatch exec [] = (.error "ids cannot be empty", [])
    ∧ (∀ ids : List GoValue, ids ≠ [] → exec ids = .ok 0 →
        deleteOperationBatch exec ids = (.ok ⟨0, ids⟩, [ids])) := by
  refine ⟨rfl, ?_⟩
  intro ids hne hexec
  unfold deleteOperationBatch
  rw [if_neg (by simpa [List.length_eq_zero] using hne), hexec]

/-- C10 witness: the empty list is rejected with no query issued; the
singleton list [1] with zero affected rows succeeds with count 0. -/
theorem claim_C10_witness :
    deleteOperationBatch (fun _ => .ok 0) [] = (.error "ids cannot be empty", [])
    ∧ deleteOperationBatch (fun _ => .ok 0) [.vints .i64 1]
      = (.ok ⟨0, [.vints .i64 1]⟩, [[.vints .i64 1]]) :=
  ⟨(claim_C10 (fun _ => .ok 0)).1,
   (claim_C10 (fun _ => .ok 0)).2 [.vints .i64 1] (by decide) rfl⟩

/-! ## Claim C5 -/

/-- C5: the code's behaviour at the significance test.  A JSON body numeric
zero (Go `float64(0)`) and a plain `int` zero are indeed invalid, so the
spec's `{"id":0}` body scenario inserts; but a zero of any other integer
type — e.g. the `int64(0)` produced by the `requestToMap` id-parameter path —
compares unequal to the untyped constant 0 at interface type and is deemed
VALID, so the save is routed to the update path, contradicting the claim
that a zero numeric value of any numeric type is invalid (and the
function's own documentation comment). -/
theorem claim_C5_code_behavior :
    isPrimaryKeyValid (.vints .i64 0) = true
    ∧ saveIsUpdate "id" [("id", .vints .i64 0)] = true
    ∧ isPrimaryKeyValid (.vints .i 0) = false
    ∧ isPrimaryKeyValid (.vfloat64 0) = false
    ∧ saveIsUpdate "id" [("id", .vfloat64 0)] = false
    ∧ isPrimaryKeyValid .vnil = false
    ∧ isPrimaryKeyValid (.vstring "") = false := by
  refine ⟨rfl, rfl, rfl, ?_, ?_, rfl, rfl⟩
  · show decide ((1 : ℚ) / 10 ^ 10 < |(0 : ℚ)|) = false
    norm_num
  · show isPrimaryKeyValid (.vfloat64 0) = false
    show decide ((1 : ℚ) / 10 ^ 10 < |(0 : ℚ)|) = false
    norm_num

/-! ## Claim C2 -/

/-- C2 counterexample: the coercion switch has no `int64` case, so an int64
column falls through to the default string passthrough — a non-numeric
(or however far out of 64-bit range) value coerces successfully to the raw
string instead of failing. -/
theorem claim_C2_counterexample :
    TransferType (fun _ => none) (fun _ _ => none)
      ⟨"n", "int64", "", false, false⟩ "99999999999999999999999999"
      = .ok (.vstring "99999999999999999999999999")
    ∧ TransferType (fun _ => none) (fun _ _ => none)
      ⟨"n", "int64", "", false, false⟩ "abc" = .ok (.vstring "abc") :=
  ⟨rfl, rfl⟩

/-- C2 (amended): for signed widths 8/16/32 and unsigned widths 8/16/32/64
the coercion is a decimal parse with range validation at the declared width
(in-range literals give the parsed integer — signed results are carried as
the raw 64-bit `ParseInt` value, unsigned ones at their exact width — and
out-of-range or non-numeric values fail); the declared type `int64` has no
case in the switch and falls back to string passthrough. -/
theorem claim_C2_amended (pt : String → Option Int) (pf : Nat → String → Option ℚ)
    (name v : String) :
    (∀ dt w, (dt, w) ∈ [("int8", 8), ("int16", 16), ("int32", 32)] →
      TransferType pt pf ⟨name, dt, "", false, false⟩ v
        = match signedDec v with
          | none => .error "invalid syntax"
          | some n =>
            if -(2 ^ (w - 1)) ≤ n ∧ n ≤ 2 ^ (w - 1) - 1 then .ok (.vints .i64 n)
            else .error "value out of range")
    ∧ (∀ dt w ty, (dt, w, ty) ∈ [("uint8", 8, IntTy.u8), ("uint16", 16, .u16),
        ("uint32", 32, .u32), ("uint64", 64, .u64)] →
      TransferType pt pf ⟨name, dt, "", false, false⟩ v
        = match decDigits v.data with
          | none => .error "invalid syntax"
          | some n =>
            if n ≤ 2 ^ w - 1 then .ok (.vints ty (n : Int))
            else .error "value out of range")
    ∧ TransferType pt pf ⟨name, "int64", "", false, false⟩ v
        = .ok (.vstring v) := by
  have hgenS : ∀ wd : Nat,
      (match goParseInt v wd with
        | .error e => (.error e : Except String GoValue)
        | .ok val => .ok (.vints .i64 val))
      = match signedDec v with
        | none => .error "invalid syntax"
        | some n =>
          if -(2 ^ (wd - 1)) ≤ n ∧ n ≤ 2 ^ (wd - 1) - 1 then .ok (.vints .i64 n)
          else .error "value out of range" := by
    intro wd
    unfold goParseInt
    cases signedDec v with
    | none => rfl
    | some n =>
      dsimp only
      generalize ((2 : Int) ^ (wd - 1)) = A
      by_cases hc : -A ≤ n ∧ n ≤ A - 1
      · rw [if_neg (by omega), if_pos hc]
      · rw [if_pos (by omega), if_neg hc]
  have hgenU : ∀ (wd : Nat) (t : IntTy),
      (match goParseUint v wd with
        | .error e => (.error e : Except String GoValue)
        | .ok val => .ok (.vints t (val : Int)))
      = match decDigits v.data with
        | none => .error "invalid syntax"
        | some n =>
          if n ≤ 2 ^ wd - 1 then .ok (.vints t (n : Int))
          else .error "value out of range" := by
    intro wd t
    unfold goParseUint
    cases decDigits v.data with
    | none => rfl
    | some n =>
      dsimp only
      generalize ((2 : Nat) ^ wd - 1) = A
      by_cases hc : n ≤ A
      · rw [if_neg (by omega), if_pos hc]
      · rw [if_pos (by omega), if_neg hc]
  refine ⟨?_, ?_, rfl⟩
  · intro dt w hmem
    simp only [List.mem_cons, List.not_mem_nil, or_false] at hmem
    rcases hmem with h | h | h <;> (injection h with h1 h2; subst h1; subst h2)
    · exact hgenS 8
    · exact hgenS 16
    · exact hgenS 32
  · intro dt w ty hmem
    simp only [List.mem_cons, List.not_mem_nil, or_false] at hmem
    rcases hmem with h | h | h | h <;>
      (injection h with h1 h2; injection h2 with h2 h3; subst h1; subst h2; subst h3)
    · exact hgenU 8 .u8
    · exact hgenU 16 .u16
    · exact hgenU 32 .u32
    · exact hgenU 64 .u64

/-- C2 witness: int8 accepts 127 and rejects 128; uint8 rejects 256 and -1;
int64 passes "abc" through as a string. -/
theorem claim_C2_witness :
    TransferType (fun _ => none) (fun _ _ => none)
      ⟨"a", "int8", "", false, false⟩ "127" = .ok (.vints .i64 127)
    ∧ TransferType (fun _ => none) (fun _ _ => none)
      ⟨"a", "int8", "", false, false⟩ "128" = .error "value out of range"
    ∧ TransferType (fun _ => none) (fun _ _ => none)
      ⟨"a", "uint8", "", false, false⟩ "256" = .error "value out of range"
    ∧ TransferType (fun _ => none) (fun _ _ => none)
      ⟨"a", "uint8", "", false, false⟩ "-1" = .error "invalid syntax" := by
  have h1 := (claim_C2_amended (fun _ => none) (fun _ _ => none) "a" "127").1
    "int8" 8 (by simp)
  have h2 := (claim_C2_amended (fun _ => none) (fun _ _ => none) "a" "128").1
    "int8" 8 (by simp)
  have h3 := (claim_C2_amended (fun _ => none) (fun _ _ => none) "a" "256").2.1
    "uint8" 8 .u8 (by simp)
  have h4 := (claim_C2_amended (fun _ => none) (fun _ _ => none) "a" "-1").2.1
    "uint8" 8 .u8 (by simp)
  rw [h1, h2, h3, h4]
  refine ⟨?_, ?_, ?_, ?_⟩ <;> rfl

/-! ## Claim C1 -/

/-- Spec-side notion of a usable caller-supplied value for a time column: a
non-empty string the time parser accepts, or a non-zero time. -/
def usableTimeValue (parseTimeOk : String → Bool) : Option GoValue → Bool
  | some (.vstring s) => s != "" && parseTimeOk s
  | some (.vtime t) => t != 0
  | _ => false

theorem shouldFillTime_eq_not_usable (parseTimeOk : String → Bool)
    (v : Option GoValue) :
    shouldFillTime parseTimeOk v = !(usableTimeValue parseTimeOk v) := by
  match v with
  | none => rfl
  | some .vnil => rfl
  | some (.vstring s) =>
    by_cases hs : s = ""
    · subst hs; rfl
    · simp [shouldFillTime, usableTimeValue, hs]
  | some (.vtime t) =>
    simp [shouldFillTime, usableTimeValue, bne]
  | some (.vints t n) => rfl
  | some (.vfloat32 q) => rfl
  | some (.vfloat64 q) => rfl
  | some (.vbool b) => rfl
  | some (.vbytes s) => rfl

/-- The insert-branch loop written as a `stepPut` fold. -/
theorem insertAutoFill_eq_stepPut (parseTimeOk : String → Bool) (now : Int)
    (columnInfo : Catalog) (data : GoMap) :
    insertAutoFill parseTimeOk now columnInfo data
      = columnInfo.foldl (stepPut Prod.fst (fun entry cur =>
          if isTimeField entry.2.dataType ∧ shouldFillTime parseTimeOk cur then
            some (.vtime now)
          else none)) data := by
  unfold insertAutoFill
  apply List.foldl_ext
  intro d entry _
  by_cases hc : isTimeField entry.2.dataType
      ∧ shouldFillTime parseTimeOk (aget d entry.1)
  · simp only [stepPut, if_pos hc]
  · simp only [stepPut, if_neg hc]

/-- Pointwise description of the insert branch: a catalog time column with
an unusable supplied value becomes the current time; everything else is the
input's binding. -/
theorem aget_insertAutoFill (parseTimeOk : String → Bool) (now : Int)
    (catalog : Catalog) (data : GoMap) (hcat : (catalog.map Prod.fst).Nodup)
    (k : String) :
    aget (insertAutoFill parseTimeOk now catalog data) k
      = match aget catalog k with
        | some col =>
          if isTimeField col.dataType ∧ shouldFillTime parseTimeOk (aget data k)
          then some (.vtime now) else aget data k
        | none => aget data k := by
  rw [insertAutoFill_eq_stepPut]
  cases hfind : catalog.find? (fun p => p.1 == k) with
  | none =>
    rw [aget_foldl_stepPut_of_find_none _ _ _ _ _ hfind]
    have hc : aget catalog k = none := by rw [aget_eq_find? catalog k, hfind]; rfl
    rw [hc]
  | some entry =>
    rw [aget_foldl_stepPut_of_find_some _ _ _ _ _ _ hcat hfind]
    have hc : aget catalog k = some entry.2 := by
      rw [aget_eq_find? catalog k, hfind]; rfl
    rw [hc]
    by_cases hcc : isTimeField entry.2.dataType
        ∧ shouldFillTime parseTimeOk (aget data k)
    · rw [if_pos hcc]; dsimp only; rw [if_pos hcc]
    · rw [if_neg hcc]; dsimp only; rw [if_neg hcc]

/-- The update-branch loop written as a `stepPut` fold. -/
theorem updateAutoFill_eq_stepPut (now : Int) (columnInfo : Catalog)
    (data : GoMap) :
    updateAutoFill now columnInfo data
      = updateTimeFieldNames.foldl (stepPut (fun s => s) (fun fieldName cur =>
          match aget columnInfo fieldName with
          | some col =>
            if isTimeField col.dataType then
              if cur.isNone ∨ cur = some .vnil then some (.vtime now) else none
            else none
          | none => none)) data := by
  unfold updateAutoFill
  apply List.foldl_ext
  intro d fieldName _
  cases hcol : aget columnInfo fieldName with
  | none => simp [stepPut, hcol]
  | some col =>
    by_cases ht : isTimeField col.dataType
    · by_cases hm : aget d fieldName = none ∨ aget d fieldName = some .vnil
      · simp [stepPut, hcol, ht, hm, Option.isNone_iff_eq_none]
      · simp [stepPut, hcol, ht, hm, Option.isNone_iff_eq_none]
    · simp [stepPut, hcol, ht]

/-- Pointwise description of the update branch: only the five conventional
update-time names, only as catalog time columns, and only when absent or
nil. -/
theorem aget_updateAutoFill (now : Int) (catalog : Catalog) (data : GoMap)
    (k : String) :
    aget (updateAutoFill now catalog data) k
      = if k ∈ updateTimeFieldNames then
          match aget catalog k with
          | some col =>
            if isTimeField col.dataType
                ∧ ((aget data k).isNone ∨ aget data k = some .vnil)
            then some (.vtime now) else aget data k
          | none => aget data k
        else aget data k := by
  rw [updateAutoFill_eq_stepPut]
  cases hfind : updateTimeFieldNames.find? (fun x => x == k) with
  | none =>
    rw [aget_foldl_stepPut_of_find_none _ _ _ _ _ hfind]
    have hnm : k ∉ updateTimeFieldNames := by
      rw [List.find?_eq_none] at hfind
      intro hmem
      exact absurd (beq_self_eq_true k) (by simpa using hfind k hmem)
    rw [if_neg hnm]
  | some x =>
    have hx : x = k := by simpa using List.find?_some hfind
    subst hx
    have hmem : x ∈ updateTimeFieldNames := List.mem_of_find?_eq_some hfind
    have hnodup : (updateTimeFieldNames.map (fun s => s)).Nodup := by decide
    rw [aget_foldl_stepPut_of_find_some _ _ _ _ _ _ hnodup hfind, if_pos hmem]
    cases hcol : aget catalog x with
    | none => rfl
    | some col =>
      by_cases ht : isTimeField col.dataType
      · by_cases hm : aget data x = none ∨ aget data x = some .vnil
        · simp [ht, hm, Option.isNone_iff_eq_none]
        · simp [ht, hm, Option.isNone_iff_eq_none]
      · simp [ht]

/-- C1 counterexample: on insert the code auto-fills EVERY timestamp-typed
catalog column, not only the conventionally named ones — the non-convention
column `birthday` is set to the current time; and on update a supplied empty
string is NOT auto-replaced, although the claim's "same condition" would
replace it. -/
theorem claim_C1_counterexample :
    insertAutoFill (fun _ => false) 7
      [("birthday", ⟨"birthday", "timestamp", "", false, false⟩)] []
      = [("birthday", .vtime 7)]
    ∧ updateAutoFill 7
      [("updated_at", ⟨"updated_at", "timestamp", "", false, false⟩)]
      [("updated_at", .vstring "")]
      = [("updated_at", .vstring "")] :=
  ⟨rfl, rfl⟩

/-- C1 (amended): on a save treated as insert, every catalog column whose
declared type is timestamp-like — regardless of its name — is set to the
current time exactly when the caller supplied no usable value (absent, nil,
empty or unparsable string, zero time, or a value of any other type); every
other key of the input map is written unchanged.  On a save treated as
update, only the update-time-convention columns (update_at, updated_at,
update_time, modification_time, modified_at) that are timestamp-typed
catalog columns are auto-populated, and only when the key is absent or nil —
a supplied empty or unparsable string is left as it is. -/
theorem claim_C1_amended (parseTimeOk : String → Bool) (now : Int)
    (catalog : Catalog) (data : GoMap) (hcat : (catalog.map Prod.fst).Nodup)
    (k : String) :
    (aget (saveAutoFill parseTimeOk now catalog data false) k
      = match aget catalog k with
        | some col =>
          if isTimeField col.dataType
              ∧ usableTimeValue parseTimeOk (aget data k) = false
          then some (.vtime now) else aget data k
        | none => aget data k)
    ∧ (aget (saveAutoFill parseTimeOk now catalog data true) k
      = if k ∈ updateTimeFieldNames then
          match aget catalog k with
          | some col =>
            if isTimeField col.dataType
                ∧ ((aget data k).isNone ∨ aget data k = some .vnil)
            then some (.vtime now) else aget data k
          | none => aget data k
        else aget data k) := by
  constructor
  · show aget (insertAutoFill parseTimeOk now catalog data) k = _
    rw [aget_insertAutoFill parseTimeOk now catalog data hcat k]
    cases aget catalog k with
    | none => rfl
    | some col =>
      dsimp only
      rw [shouldFillTime_eq_not_usable]
      simp only [Bool.not_eq_true']
  · show aget (updateAutoFill now catalog data) k = _
    exact aget_updateAutoFill now catalog data k

/-- C1 witness: the amended theorem applied to a catalog holding
`created_at` (timestamp) and `name` (string) with an empty input map — the
time column is filled, the string column is untouched. -/
theorem claim_C1_witness :
    aget (saveAutoFill (fun _ => false) 7
      [("created_at", ⟨"created_at", "timestamp", "", false, false⟩),
       ("name", ⟨"name", "string", "", false, false⟩)] [] false) "created_at"
      = some (.vtime 7) := by
  rw [(claim_C1_amended (fun _ => false) 7
    [("created_at", ⟨"created_at", "timestamp", "", false, false⟩),
     ("name", ⟨"name", "string", "", false, false⟩)] [] (by decide)
    "created_at").1]
  rfl

/-! ## Claim C4: characterizing the field translator -/

theorem mem_of_aget_eq_some {α : Type} (m : List (String × α)) (k : String) (v : α)
    (h : aget m k = some v) : (k, v) ∈ m := by
  rw [aget_eq_find?] at h
  rcases Option.map_eq_some'.mp h with ⟨p, hp, hv⟩
  have hk : p.1 = k := by simpa using List.find?_some hp
  have : p = (k, v) := by
    cases p; simp at hk hv; simp [hk, hv]
  exact this ▸ List.mem_of_find?_eq_some hp

/-- The rename loops (`output[dbField] = input[apiField]` and its mirror, and
`reverseMap`) as `stepPut` folds. -/
theorem assignFold_eq_stepPut {α β : Type} (l : List β) (keyf : β → String)
    (src : β → Option α) (acc : List (String × α)) :
    l.foldl (fun out x => condPut out (keyf x) (src x)) acc
      = l.foldl (stepPut keyf (fun x _ => src x)) acc := by
  apply List.foldl_ext
  intro d x _
  cases h : src x <;> simp [stepPut, condPut, h]

/-- The unmapped-copy loops as `stepPut` folds. -/
theorem copyFold_eq_stepPut (cond : String → Prop) [DecidablePred cond]
    (l : GoMap) (acc : GoMap) :
    l.foldl (fun out p => if cond p.1 then aput out p.1 p.2 else out) acc
      = l.foldl (stepPut Prod.fst
          (fun p _ => if cond p.1 then some p.2 else none)) acc := by
  apply List.foldl_ext
  intro d p _
  by_cases h : cond p.1 <;> simp [stepPut, h]

theorem aget_assignFold {α β : Type} (l : List β) (keyf : β → String)
    (src : β → Option α) (acc : List (String × α)) (k : String)
    (hnodup : (l.map keyf).Nodup) :
    aget (l.foldl (stepPut keyf (fun x _ => src x)) acc) k
      = match l.find? (fun x => keyf x == k) with
        | some x =>
          (match src x with
            | some v => some v
            | none => aget acc k)
        | none => aget acc k := by
  cases hfind : l.find? (fun x => keyf x == k) with
  | none => exact aget_foldl_stepPut_of_find_none _ _ _ _ _ hfind
  | some x =>
    rw [aget_foldl_stepPut_of_find_some _ _ _ _ _ _ hnodup hfind]

theorem aget_copyFold (cond : String → Prop) [DecidablePred cond]
    (l : GoMap) (acc : GoMap) (k : String) (hnodup : (l.map Prod.fst).Nodup) :
    aget (l.foldl (stepPut Prod.fst
        (fun p _ => if cond p.1 then some p.2 else none)) acc) k
      = match l.find? (fun p => p.1 == k) with
        | some p => if cond k then some p.2 else aget acc k
        | none => aget acc k := by
  cases hfind : l.find? (fun p => p.1 == k) with
  | none => exact aget_foldl_stepPut_of_find_none _ _ _ _ _ hfind
  | some p =>
    rw [aget_foldl_stepPut_of_find_some _ _ _ _ _ _ hnodup hfind]
    have hk : p.1 = k := by simpa using List.find?_some hfind
    rw [hk]
    dsimp only
    by_cases hc : cond k
    · rw [if_pos hc, if_pos hc]
    · rw [if_neg hc, if_neg hc]

theorem reverseMap_eq_stepPut (tm : List (String × String)) :
    reverseMap tm = tm.foldl (stepPut Prod.snd (fun p _ => some p.1)) [] := by
  unfold reverseMap
  apply List.foldl_ext
  intro d p _
  simp [stepPut]

/-- With an injective transfer map, `reverseMap` is exactly the
storage-to-api direction. -/
theorem aget_reverseMap (tm : List (String × String)) (k : String)
    (htmV : (tm.map Prod.snd).Nodup) :
    aget (reverseMap tm) k
      = match tm.find? (fun p => p.2 == k) with
        | some p => some p.1
        | none => none := by
  rw [reverseMap_eq_stepPut]
  have h := aget_assignFold tm Prod.snd (fun p => some p.1)
    ([] : List (String × String)) k htmV
  rw [h]
  cases tm.find? (fun p => p.2 == k) <;> rfl

/-- What the forward rename loop leaves at `k` when the copy loop did not
override it. -/
def fwdPass (tm : List (String × String)) (input : GoMap) (k : String) :
    Option GoValue :=
  match tm.find? (fun q => q.2 == k) with
  | some q => aget input q.1
  | none => none

/-- What the reverse rename loop leaves at `k` when the copy loop did not
override it. -/
def revPass (tm : List (String × String)) (input : GoMap) (k : String) :
    Option GoValue :=
  match tm.find? (fun q => q.1 == k) with
  | some q => aget input q.2
  | none => none

/-- Pointwise description of `transferData(_, false)` for a non-empty map
without an identity binding. -/
theorem aget_transferData_false (tm : List (String × String)) (input : GoMap)
    (hemp : ¬tm.isEmpty = true) (htmV : (tm.map Prod.snd).Nodup)
    (hin : (input.map Prod.fst).Nodup) (hid : aget input "id" = none)
    (k : String) :
    aget (transferData tm input false) k
      = match aget input k with
        | some v =>
          if (aget tm k).isNone ∧ k ≠ "id" then some v else fwdPass tm input k
        | none => fwdPass tm input k := by
  unfold transferData
  rw [hid, if_neg hemp, if_neg (by simp)]
  dsimp only
  rw [copyFold_eq_stepPut (fun s => (aget tm s).isNone ∧ s ≠ "id") input,
    assignFold_eq_stepPut tm Prod.snd (fun p => aget input p.1)]
  rw [aget_copyFold (fun s => (aget tm s).isNone ∧ s ≠ "id") input _ k hin]
  have hfwd : aget (tm.foldl
      (stepPut Prod.snd (fun x _ => aget input x.1)) ([] : GoMap)) k
      = fwdPass tm input k := by
    rw [aget_assignFold tm Prod.snd (fun p => aget input p.1) [] k htmV]
    unfold fwdPass
    cases htf : tm.find? (fun q => q.2 == k) with
    | none => rfl
    | some q => cases h : aget input q.1 <;> simp [h]
  rw [hfwd, aget_eq_find? input k]
  cases hf : input.find? (fun p => p.1 == k) with
  | none => simp
  | some p => simp

/-- Pointwise description of `transferData(_, true)` for a non-empty map
without an identity binding. -/
theorem aget_transferData_true (tm : List (String × String)) (input : GoMap)
    (hemp : ¬tm.isEmpty = true) (htmK : (tm.map Prod.fst).Nodup)
    (hin : (input.map Prod.fst).Nodup) (hid : aget input "id" = none)
    (k : String) :
    aget (transferData tm input true) k
      = match aget input k with
        | some v =>
          if (aget (reverseMap tm) k).isNone ∧ k ≠ "id" then some v
          else revPass tm input k
        | none => revPass tm input k := by
  unfold transferData
  rw [hid, if_neg hemp, if_pos rfl]
  dsimp only
  rw [copyFold_eq_stepPut (fun s => (aget (reverseMap tm) s).isNone ∧ s ≠ "id")
      input,
    assignFold_eq_stepPut tm Prod.fst (fun p => aget input p.2)]
  rw [aget_copyFold (fun s => (aget (reverseMap tm) s).isNone ∧ s ≠ "id")
    input _ k hin]
  have hrev : aget (tm.foldl
      (stepPut Prod.fst (fun x _ => aget input x.2)) ([] : GoMap)) k
      = revPass tm input k := by
    rw [aget_assignFold tm Prod.fst (fun p => aget input p.2) [] k htmK]
    unfold revPass
    cases htf : tm.find? (fun q => q.1 == k) with
    | none => rfl
    | some q => cases h : aget input q.2 <;> simp [h]
  rw [hrev, aget_eq_find? input k]
  cases hf : input.find? (fun p => p.1 == k) with
  | none => simp
  | some p => simp

/-- Pointwise description of `transferData` with an empty transfer map and
no identity binding: a plain copy. -/
theorem aget_transferData_empty (tm : List (String × String)) (input : GoMap)
    (hemp : tm.isEmpty = true) (hin : (input.map Prod.fst).Nodup)
    (hid : aget input "id" = none) (reverse : Bool) (k : String) :
    aget (transferData tm input reverse) k = aget input k := by
  unfold transferData
  rw [hid, if_pos hemp]
  dsimp only
  rw [copyFold_eq_stepPut (fun s => s ≠ "id") input]
  rw [aget_copyFold (fun s => s ≠ "id") input _ k hin]
  rw [aget_eq_find? input k]
  cases hf : input.find? (fun p => p.1 == k) with
  | none => rfl
  | some p =>
    by_cases hkid : k = "id"
    · subst hkid
      rw [aget_eq_find? input "id", hf] at hid
      simp at hid
    · simp [hkid]

/-- The translator's output always has duplicate-free keys. -/
theorem transferData_keys_nodup (tm : List (String × String)) (input : GoMap)
    (reverse : Bool) :
    ((transferData tm input reverse).map Prod.fst).Nodup := by
  unfold transferData
  have h0 : ∀ m : GoMap,
      ((match aget input "id" with
        | some v => [("id", v)]
        | none => ([] : GoMap)) = m) → (m.map Prod.fst).Nodup := by
    intro m hm
    cases h : aget input "id" <;> rw [h] at hm <;> subst hm <;> simp
  have hnod : ((match aget input "id" with
      | some v => [("id", v)]
      | none => ([] : GoMap)).map Prod.fst).Nodup := h0 _ rfl
  by_cases hemp : tm.isEmpty
  · rw [if_pos hemp, copyFold_eq_stepPut (fun s => s ≠ "id") input]
    exact foldl_stepPut_keys_nodup _ _ _ _ hnod
  · rw [if_neg hemp]
    cases reverse with
    | true =>
      rw [if_pos rfl,
        copyFold_eq_stepPut (fun s => (aget (reverseMap tm) s).isNone ∧ s ≠ "id")
          input,
        assignFold_eq_stepPut tm Prod.fst (fun p => aget input p.2)]
      exact foldl_stepPut_keys_nodup _ _ _ _
        (foldl_stepPut_keys_nodup _ _ _ _ hnod)
    | false =>
      rw [if_neg (by simp),
        copyFold_eq_stepPut (fun s => (aget tm s).isNone ∧ s ≠ "id") input,
        assignFold_eq_stepPut tm Prod.snd (fun p => aget input p.1)]
      exact foldl_stepPut_keys_nodup _ _ _ _
        (foldl_stepPut_keys_nodup _ _ _ _ hnod)

theorem find?_snd_of_mem (tm : List (String × String)) (q : String × String)
    (hq : q ∈ tm) (htmV : (tm.map Prod.snd).Nodup) :
    tm.find? (fun p => p.2 == q.2) = some q := by
  cases hf : tm.find? (fun p => p.2 == q.2) with
  | none =>
    rw [List.find?_eq_none] at hf
    exact absurd (beq_self_eq_true q.2) (by simpa using hf q hq)
  | some q' =>
    have hmem := List.mem_of_find?_eq_some hf
    have heq : q'.2 = q.2 := by simpa using List.find?_some hf
    rw [List.inj_on_of_nodup_map htmV hmem hq heq]

theorem aget_some_find? {α : Type} (m : List (String × α)) (k : String) (v : α)
    (h : aget m k = some v) : m.find? (fun p => p.1 == k) = some (k, v) := by
  rw [aget_eq_find?] at h
  rcases Option.map_eq_some'.mp h with ⟨p, hp, hv⟩
  have hk : p.1 = k := by simpa using List.find?_some hp
  rw [hp]
  cases p
  simp at hk hv
  simp [hk, hv]

theorem aget_none_find? {α : Type} (m : List (String × α)) (k : String)
    (h : aget m k = none) : m.find? (fun p => p.1 == k) = none := by
  rw [aget_eq_find?, Option.map_eq_none'] at h
  exact h

/-- C4 counterexample: with the injective map a↦b and the id-free input
whose only key is the storage name b, the round trip does NOT restore the
input: the reverse direction renames b back to a, so the unmapped key b is
not left untouched. -/
theorem claim_C4_counterexample :
    transferData [("a", "b")]
      (transferData [("a", "b")] [("b", GoValue.vstring "x")] false) true
      = [("a", GoValue.vstring "x")]
    ∧ aget (transferData [("a", "b")]
        (transferData [("a", "b")] [("b", GoValue.vstring "x")] false) true) "b"
      ≠ aget [("b", GoValue.vstring "x")] "b" :=
  ⟨rfl, by decide⟩

/-- C4 (amended): the round-trip law holds for every injective field map `m`
and id-free map `d`, provided additionally that the identity field is not
one of `m`'s storage names and that no key of `d` outside `m`'s domain is
one of `m`'s storage names: then storage-to-external after
external-to-storage restores every binding of `d`. -/
theorem claim_C4_roundtrip (tm : List (String × String)) (d : GoMap)
    (htmK : (tm.map Prod.fst).Nodup) (htmV : (tm.map Prod.snd).Nodup)
    (hdK : (d.map Prod.fst).Nodup) (hid : aget d "id" = none)
    (hidR : "id" ∉ tm.map Prod.snd)
    (hdR : ∀ p ∈ d, aget tm p.1 = none → p.1 ∉ tm.map Prod.snd)
    (k : String) :
    aget (transferData tm (transferData tm d false) true) k = aget d k := by
  by_cases hemp : tm.isEmpty
  · have hgK := transferData_keys_nodup tm d false
    have hgid : aget (transferData tm d false) "id" = none := by
      rw [aget_transferData_empty tm d hemp hdK hid false "id"]; exact hid
    rw [aget_transferData_empty tm (transferData tm d false) hemp hgK hgid
      true k]
    exact aget_transferData_empty tm d hemp hdK hid false k
  · have hg : ∀ k', aget (transferData tm d false) k'
        = match aget d k' with
          | some v =>
            if (aget tm k').isNone ∧ k' ≠ "id" then some v else fwdPass tm d k'
          | none => fwdPass tm d k' :=
      fun k' => aget_transferData_false tm d hemp htmV hdK hid k'
    have hgK := transferData_keys_nodup tm d false
    have hgid : aget (transferData tm d false) "id" = none := by
      rw [hg "id", hid]
      dsimp only
      unfold fwdPass
      rw [(find?_snd_eq_none_iff tm "id").mpr hidR]
    rw [aget_transferData_true tm (transferData tm d false) hemp htmK hgK
      hgid k]
    generalize hgdef : transferData tm d false = g at hg hgid ⊢
    have hC : ∀ q : String × String, q ∈ tm → aget g q.2 = aget d q.1 := by
      intro q hq
      have hfs : tm.find? (fun p => p.2 == q.2) = some q :=
        find?_snd_of_mem tm q hq htmV
      have hfw : fwdPass tm d q.2 = aget d q.1 := by
        unfold fwdPass; rw [hfs]
      rw [hg q.2]
      cases hdb : aget d q.2 with
      | none => exact hfw
      | some w =>
        dsimp only
        have hnc : ¬((aget tm q.2).isNone = true ∧ q.2 ≠ "id") := by
          intro hcond
          exact hdR (q.2, w) (mem_of_aget_eq_some d q.2 w hdb)
            (Option.isNone_iff_eq_none.mp hcond.1)
            (List.mem_map.mpr ⟨q, hq, rfl⟩)
        rw [if_neg hnc, hfw]
    cases hdk : aget tm k with
    | some b =>
      have hfd : tm.find? (fun p => p.1 == k) = some (k, b) :=
        aget_some_find? tm k b hdk
      have hmem : (k, b) ∈ tm := List.mem_of_find?_eq_some hfd
      have hrv : revPass tm g k = aget g b := by unfold revPass; rw [hfd]
      have hgb : aget g b = aget d k := hC (k, b) hmem
      cases hrng : tm.find? (fun p => p.2 == k) with
      | some q =>
        have hrm : aget (reverseMap tm) k = some q.1 := by
          rw [aget_reverseMap tm k htmV, hrng]
        cases hgk : aget g k with
        | none => dsimp only; rw [hrv, hgb]
        | some v =>
          dsimp only
          rw [if_neg (by simp [hrm]), hrv, hgb]
      | none =>
        have hfwn : fwdPass tm d k = none := by unfold fwdPass; rw [hrng]
        have hgkn : aget g k = none := by
          rw [hg k]
          cases hdd : aget d k with
          | none => exact hfwn
          | some w =>
            dsimp only
            rw [if_neg (by simp [hdk]), hfwn]
        rw [hgkn]
        dsimp only
        rw [hrv, hgb]
    | none =>
      have hfdn : tm.find? (fun p => p.1 == k) = none := aget_none_find? tm k hdk
      have hrvn : revPass tm g k = none := by unfold revPass; rw [hfdn]
      cases hdd : aget d k with
      | some v =>
        have hknid : k ≠ "id" := by
          intro hc; subst hc; rw [hid] at hdd; cases hdd
        have hnr : k ∉ tm.map Prod.snd :=
          hdR (k, v) (mem_of_aget_eq_some d k v hdd) hdk
        have hrm : aget (reverseMap tm) k = none := by
          rw [aget_reverseMap tm k htmV, (find?_snd_eq_none_iff tm k).mpr hnr]
        have hgk : aget g k = some v := by
          rw [hg k, hdd]
          dsimp only
          rw [if_pos ⟨by simp [hdk], hknid⟩]
        rw [hgk]
        dsimp only
        rw [if_pos ⟨by simp [hrm], hknid⟩]
      | none =>
        cases hgk : aget g k with
        | none => dsimp only; rw [hrvn]
        | some v =>
          have hfw : fwdPass tm d k = some v := by
            have h' := hgk
            rw [hg k, hdd] at h'
            simpa using h'
          cases hrng : tm.find? (fun p => p.2 == k) with
          | none =>
            unfold fwdPass at hfw
            simp [hrng] at hfw
          | some q =>
            have hrm : aget (reverseMap tm) k = some q.1 := by
              rw [aget_reverseMap tm k htmV, hrng]
            dsimp only
            rw [if_neg (by simp [hrm]), hrvn]

/-- C4 witness: the round-trip theorem applied to the field map
userName↦name and the input holding userName and an unmapped key age. -/
theorem claim_C4_witness :
    aget (transferData [("userName", "name")]
      (transferData [("userName", "name")]
        [("userName", GoValue.vstring "X"), ("age", GoValue.vints .i64 3)]
        false) true) "userName"
      = aget [("userName", GoValue.vstring "X"),
              ("age", GoValue.vints .i64 3)] "userName" :=
  claim_C4_roundtrip [("userName", "name")]
    [("userName", GoValue.vstring "X"), ("age", GoValue.vints .i64 3)]
    (by decide) (by decide) (by decide) rfl (by decide) (by decide) "userName"

end Crudo
